import Mathlib

/-!
Shallow embedding of the loadshed admission-control engine.

The Go source is embedded as pure Lean functions. Mutable state (capacity
counters and rolling windows) is passed explicitly; the random source of the
Shedder (randFloat in Go) becomes an explicit stream of draws indexed by the
number of values consumed so far; float32 and float64 values are modelled as
rationals, except where IEEE division by zero matters, where an explicit
GoFloat type with a NaN value tracks the IEEE semantics.
-/

/-- Classification is an arbitrary class tag assigned to invocations (a Go
string). -/
abbrev Classification := String

/-- The call context. The loadshed package only stores one value in the Go
context: the classification tag under classCtxKey. An absent entry is
modelled with none. -/
structure Ctx where
  classification : Option Classification
deriving DecidableEq

/-- A context with no values attached, as produced by context.Background(). -/
def backgroundCtx : Ctx := ⟨none⟩

/-- ClassificationFromContext returns the stored classification or the empty
classification when none is stored. -/
def ClassificationFromContext (ctx : Ctx) : Classification :=
  match ctx.classification with
  | none => ""
  | some v => v

/-- ClassificationToContext stores a classification in the context. -/
def ClassificationToContext (ctx : Ctx) (class' : Classification) : Ctx :=
  { ctx with classification := some class' }

/-- A non-rejection Go error value returned by a wrapped action. -/
structure GoErr where
  msg : String
deriving DecidableEq

/-- ErrRejection provides the details on why an invocation was rejected.
Usage, Likelihood and Rate are float32 in Go, modelled as rationals. -/
structure ErrRejection where
  Rule : String
  Classification : Classification
  Name : String
  Usage : ℚ
  Likelihood : ℚ
  Rate : ℚ
deriving DecidableEq

/-- RuleProbabilistic is the name of the rejection rule that covers all cases
of using a rejection rate rather than a deterministic rule. -/
def RuleProbabilistic : String := "PROBABILISTIC"

/-- The ways an invocation of an action can finish: normal return with a nil
error, return of a non-nil error (either an ErrRejection or a pass-through
action error), or abnormal termination (panic). -/
inductive Outcome where
  | ok
  | rejection (e : ErrRejection)
  | err (e : GoErr)
  | panicked
deriving DecidableEq

/-- Fn is the basic unit of execution: an action taking the call context,
acting on the world state of type sg, and finishing with an Outcome. -/
def Fn (sg : Type) : Type := Ctx → sg → Outcome × sg

/-- Rule represents a deterministic load shedding decision with a name.
Both methods may read (but never change) the world state. -/
structure Rule (sg : Type) where
  name : Ctx → sg → String
  reject : Ctx → sg → Bool

/-- RejectionRate: the capability set of the Go RejectionRate interface
(Name, Usage, Likelihood, Rate) plus the optional Wrapper instrumentation
hook modelled as an optional action transformer, mirroring the Go type
assertion rate.(Wrapper). The four read methods never change the state. -/
structure RejectionRate (sg : Type) where
  name : Ctx → sg → String
  usage : Ctx → sg → ℚ
  likelihood : Ctx → sg → ℚ
  rate : Ctx → sg → ℚ
  wrap : Option (Fn sg → Fn sg)

/-- FailureProbability: the Go FailureProbability interface (Name, Usage,
Likelihood) with the optional Wrapper hook. -/
structure FailureProbability (sg : Type) where
  name : Ctx → sg → String
  usage : Ctx → sg → ℚ
  likelihood : Ctx → sg → ℚ
  wrap : Option (Fn sg → Fn sg)

/-- Classifier determines the classification of a method invocation from the
call context. -/
def Classifier : Type := Ctx → Classification

/-- Shedder: an ordered list of Rules, an ordered list of RejectionRates and
an optional Classifier, fixed at construction. The Go randFloat field is
modelled as the explicit draw stream passed to Select and Do. -/
structure Shedder (sg : Type) where
  rejectionRates : List (RejectionRate sg)
  rules : List (Rule sg)
  classifier : Option Classifier

/-- The probabilistic rejection built by Select when the draw for rate r is
below its current rate value. -/
def probRejection {sg : Type} (r : RejectionRate sg) (ctx : Ctx) (st : sg) :
    ErrRejection :=
  { Rule := RuleProbabilistic
    Classification := ClassificationFromContext ctx
    Name := r.name ctx st
    Usage := r.usage ctx st
    Likelihood := r.likelihood ctx st
    Rate := r.rate ctx st }

/-- The deterministic rejection built by Select when rule r rejects: the
probabilistic fields stay at their zero values. -/
def ruleRejection {sg : Type} (r : Rule sg) (ctx : Ctx) (st : sg) :
    ErrRejection :=
  { Rule := r.name ctx st
    Classification := ClassificationFromContext ctx
    Name := ""
    Usage := 0
    Likelihood := 0
    Rate := 0 }

/-- The first loop of Select: evaluate rules in registration order and stop
at the first rule whose reject is true. -/
def selectRules {sg : Type} (rules : List (Rule sg)) (ctx : Ctx) (st : sg) :
    Option ErrRejection :=
  match rules with
  | [] => none
  | r :: rest =>
    if r.reject ctx st then some (ruleRejection r ctx st)
    else selectRules rest ctx st

/-- The second loop of Select: evaluate rejection rates in registration
order, drawing one random value per rate from the stream, and stop at the
first rate whose draw is strictly below its current rate. The argument i is
the index of the next unconsumed draw; the returned number is the index
after the loop, so the count of draws consumed overall. -/
def selectRates {sg : Type} (rates : List (RejectionRate sg)) (ctx : Ctx)
    (draws : ℕ → ℚ) (st : sg) (i : ℕ) : Option ErrRejection × ℕ :=
  match rates with
  | [] => (none, i)
  | r :: rest =>
    let rate := r.rate ctx st
    let diceRoll := draws i
    if diceRoll < rate then (some (probRejection r ctx st), i + 1)
    else selectRates rest ctx draws st (i + 1)

/-- Select performs the decision making process of the Shedder: rules first,
then rejection rates, with first-match short circuit. It returns the
optional rejection together with the number of random draws consumed. -/
def Shedder.Select {sg : Type} (s : Shedder sg) (ctx : Ctx) (draws : ℕ → ℚ)
    (st : sg) : Option ErrRejection × ℕ :=
  match selectRules s.rules ctx st with
  | some e => (some e, 0)
  | none => selectRates s.rejectionRates ctx draws st 0

/-- The wrapper-folding loop shared by Do and WrapSelect: every rejection
rate that exposes the optional Wrapper hook wraps the action, in
registration order, so the last registered wrapper is outermost. -/
def applyWraps {sg : Type} (rates : List (RejectionRate sg)) (fn : Fn sg) :
    Fn sg :=
  rates.foldl (fun f r => match r.wrap with | some w => w f | none => f) fn

/-- The classification step at the top of Do and of the action returned by
WrapSelect: with a classifier the computed classification is attached to the
context, otherwise the context is untouched. -/
def Shedder.classify {sg : Type} (s : Shedder sg) (ctx : Ctx) : Ctx :=
  match s.classifier with
  | some c => ClassificationToContext ctx (c ctx)
  | none => ctx

/-- Do: classify, Select, and on rejection return the rejection with the
state untouched; otherwise apply every instrumentation wrapper to the action
and execute the wrapped action on the classified context. -/
def Shedder.Do {sg : Type} (s : Shedder sg) (ctx : Ctx) (fn : Fn sg)
    (draws : ℕ → ℚ) (st : sg) : Outcome × sg :=
  let ctx := s.classify ctx
  match (s.Select ctx draws st).1 with
  | some e => (Outcome.rejection e, st)
  | none => applyWraps s.rejectionRates fn ctx st

/-- WrapSelect: apply every instrumentation wrapper to the action once, at
construction of the returned action, and return an action that classifies,
Selects and on acceptance runs the pre-wrapped action on the classified
context. The returned action takes the draw stream explicitly, as Do does. -/
def Shedder.WrapSelect {sg : Type} (s : Shedder sg) (fn : Fn sg) :
    Ctx → (ℕ → ℚ) → sg → Outcome × sg :=
  let fn := applyWraps s.rejectionRates fn
  fun ctx draws st =>
    let ctx := s.classify ctx
    match (s.Select ctx draws st).1 with
    | some e => (Outcome.rejection e, st)
    | none => fn ctx st

/-- Curve: a scalar to scalar mapping taking the call context, as in the Go
Curve interface. CurveFN in Go is exactly such a function. -/
def Curve : Type := Ctx → ℚ → ℚ

/-- The power step of CurveLinear. In Go this is math.Pow on float64; the
rational model supports it for integer exponents, which covers every curve
exercised by the specification (all use Exponent equal to 1, where the code
skips the power operation entirely). Non-integer exponents fall outside the
rational model and are mapped to 0. -/
def powQ (x e : ℚ) : ℚ :=
  if e.den = 1 then x ^ e.num else 0

/-- CurveLinear is a linear interpolation curve with thresholds and an
optional exponent, f(x) = x < Lower then 0 else x > Upper then 1 else
a power of (x - Lower) / (Upper - Lower). -/
structure CurveLinear where
  Upper : ℚ
  Lower : ℚ
  Exponent : ℚ
deriving DecidableEq

/-- CurveLinear.Curve from the source: the two threshold tests in order,
then the interpolation quotient, raised to the exponent only when the
exponent differs from 1. -/
def CurveLinear.Curve (self : CurveLinear) (_ctx : Ctx) (value : ℚ) : ℚ :=
  if value < self.Lower then 0
  else if value > self.Upper then 1
  else
    let line := (value - self.Lower) / (self.Upper - self.Lower)
    if self.Exponent ≠ 1 then powQ line self.Exponent
    else line

/-- The linear curve formula as the specification words it: 0 below the
lower threshold, 1 above the upper threshold, and otherwise the quotient
(value - lower) / (upper - lower) raised to the exponent, with exponent 1
computed as the plain quotient without the power operation. Stated from the
specification for comparison with CurveLinear.Curve. -/
def curveLinearSpec (self : CurveLinear) (value : ℚ) : ℚ :=
  if value < self.Lower then 0
  else if value > self.Upper then 1
  else if self.Exponent = 1 then (value - self.Lower) / (self.Upper - self.Lower)
  else powQ ((value - self.Lower) / (self.Upper - self.Lower)) self.Exponent

/-- RejectionRateCurve: a FailureProbability, a default Curve and a map from
Classification to override Curves. The Go map lookup returning nil for a
missing key is modelled with an Option valued function. -/
structure RejectionRateCurve (sg : Type) where
  fp : FailureProbability sg
  defaultCurve : Curve
  classificationCurves : Classification → Option Curve

/-- NewRejectionRateCurveIdentity: the identity default curve and the empty
classification map. -/
def NewRejectionRateCurveIdentity {sg : Type} (p : FailureProbability sg) :
    RejectionRateCurve sg :=
  { fp := p
    defaultCurve := fun _ value => value
    classificationCurves := fun _ => none }

/-- NewRejectionRateCurveLinear: a CurveLinear default curve and the empty
classification map. -/
def NewRejectionRateCurveLinear {sg : Type} (p : FailureProbability sg)
    (lower upper exponent : ℚ) : RejectionRateCurve sg :=
  { fp := p
    defaultCurve := (CurveLinear.mk upper lower exponent).Curve
    classificationCurves := fun _ => none }

/-- RejectionRateCurve.Rate: select the curve registered for the current
classification, fall back to the default curve when none is registered, and
apply it to the current likelihood. -/
def RejectionRateCurve.Rate {sg : Type} (self : RejectionRateCurve sg)
    (ctx : Ctx) (st : sg) : ℚ :=
  let curve :=
    match self.classificationCurves (ClassificationFromContext ctx) with
    | some c => c
    | none => self.defaultCurve
  curve ctx (self.fp.likelihood ctx st)

/-- A Go floating point value: the rationals extended with NaN and the two
infinities, enough to track IEEE division by zero exactly on the values the
capacities compute. -/
inductive GoFloat where
  | nan
  | inf (negative : Bool)
  | val (q : ℚ)
deriving DecidableEq

/-- IEEE division on GoFloat: a finite value divided by zero gives NaN when
the numerator is zero and a signed infinity otherwise; NaN propagates;
infinity over infinity is NaN; a finite value over infinity is zero. Signs
of zero are not tracked. -/
def GoFloat.div : GoFloat → GoFloat → GoFloat
  | .nan, _ => .nan
  | _, .nan => .nan
  | .inf _, .inf _ => .nan
  | .inf s, .val b => if b < 0 then .inf (!s) else .inf s
  | .val _, .inf _ => .val 0
  | .val a, .val b =>
    if b = 0 then (if a = 0 then .nan else .inf (a < 0))
    else .val (a / b)

/-- CapacityConcurrency: a counter of in-flight invocations and a configured
limit (int32 in Go; overflow is not exercised by any claim, so plain
integers model the counter). -/
structure CapacityConcurrency where
  name : String
  limit : ℤ
  current : ℤ
deriving DecidableEq

/-- NewCapacityConcurrency: the counter starts at zero. The name option
defaults to the CONCURRENCY constant. -/
def NewCapacityConcurrency (limit : ℤ) (name : String := "CONCURRENCY") :
    CapacityConcurrency :=
  { name := name, limit := limit, current := 0 }

/-- CapacityConcurrency.Usage: the current counter divided by the limit,
computed in floating point as float64 division then truncated to float32. -/
def CapacityConcurrency.Usage (self : CapacityConcurrency) (_ctx : Ctx) :
    GoFloat :=
  GoFloat.div (.val self.current) (.val self.limit)

/-- A rolling window is modelled as the list of samples currently inside the
window; appending adds a sample at the end. The bucketing and expiry of the
external rolling library are out of scope: no claim under verification
advances time across a window boundary. -/
abbrev Window := List ℤ

/-- Modelled from the spec: the Count reduction of the external rolling
library counts the samples currently inside the window. -/
def rollingCount (w : Window) : ℤ := w.length

/-- Modelled from the spec: the MinimumPoints guarded reduction of the
external rolling library returns the not-enough-data value (zero for a
count) when fewer samples than the threshold are inside the window, and the
inner reduction otherwise. -/
def rollingMinimumPoints (minPoints : ℤ) (inner : Window → ℤ) (w : Window) : ℤ :=
  if rollingCount w < minPoints then 0 else inner w

/-- Modelled from the spec: the Avg reduction of the external rolling
library averages the samples inside the window (integer division for
integer valued samples such as durations) and reduces an empty window to
zero, the graceful no-data value required by the specification and checked
by the latency test. -/
def rollingAvg (w : Window) : ℤ :=
  if w.length = 0 then 0 else w.sum / (w.length : ℤ)

/-- CapacityLandingRate: a single rolling window of invocation starts and a
configured limit. -/
structure CapacityLandingRate where
  name : String
  invocations : Window
  limit : ℤ

/-- NewCapacityLandingRate: the window starts empty. -/
def NewCapacityLandingRate (limit : ℤ) (name : String := "LANDING RATE") :
    CapacityLandingRate :=
  { name := name, invocations := [], limit := limit }

/-- CapacityLandingRate.Usage: the window count divided by the limit in
floating point. -/
def CapacityLandingRate.Usage (self : CapacityLandingRate) (_ctx : Ctx) :
    GoFloat :=
  GoFloat.div (.val (rollingCount self.invocations)) (.val self.limit)

/-- CapacityLandingRate.Wrap appends one sample unconditionally before
invoking the action. The window is threaded next to the action state. -/
def CapacityLandingRate.WrapExec {tau : Type} (fn : Ctx → tau → Outcome × tau)
    (ctx : Ctx) (w : Window) (ext : tau) : Outcome × Window × tau :=
  let w := w ++ [1]
  ((fn ctx ext).1, w, (fn ctx ext).2)

/-- CapacityErrorRate: two rolling windows (attempts and errors) plus the
attempt reducer chosen at construction (a plain count, or a minimum-points
guarded count when the MinimumPoints option is positive). -/
structure CapacityErrorRate where
  name : String
  invocations : Window
  errors : Window
  attemptReducer : Window → ℤ

/-- NewCapacityErrorRate: empty windows; with a positive minimumPoints
option the attempt reducer is the guarded count, otherwise the plain
count. -/
def NewCapacityErrorRate (minimumPoints : ℤ := 0)
    (name : String := "ERROR RATE") : CapacityErrorRate :=
  { name := name
    invocations := []
    errors := []
    attemptReducer :=
      if 0 < minimumPoints then rollingMinimumPoints minimumPoints rollingCount
      else rollingCount }

/-- CapacityErrorRate.Usage: zero when the attempt reduction is zero,
otherwise errors divided by attempts with an explicit NaN guard that
normalizes to zero, exactly as the source checks math.IsNaN. -/
def CapacityErrorRate.Usage (self : CapacityErrorRate) (_ctx : Ctx) :
    GoFloat :=
  let attempts := self.attemptReducer self.invocations
  if attempts = 0 then .val 0
  else
    let errors := rollingCount self.errors
    let value := GoFloat.div (.val errors) (.val attempts)
    if value = .nan then .val 0 else value

/-- The state acted on by an error-rate wrapped action: the two windows of
the capacity plus the external state the action itself manipulates. -/
structure ErrRateState (tau : Type) where
  invocations : Window
  errors : Window
  ext : tau

/-- CapacityErrorRate.Wrap from the source: run the action, then in a
deferred block that runs on every exit path append one attempt sample, and
append one error sample when the action returned a non-nil error or
terminated abnormally (the didPanic flag is still true when the assignment
after the call never ran). The outcome of the action, including a panic,
propagates unchanged. -/
def CapacityErrorRate.WrapExec {tau : Type} (fn : Ctx → tau → Outcome × tau)
    (ctx : Ctx) (st : ErrRateState tau) : Outcome × ErrRateState tau :=
  let out := (fn ctx st.ext).1
  let ext := (fn ctx st.ext).2
  let didPanic := out = Outcome.panicked
  let isErr := out ≠ Outcome.ok
  let invocations := st.invocations ++ [1]
  let errors := if isErr ∨ didPanic then st.errors ++ [1] else st.errors
  (out, { invocations := invocations, errors := errors, ext := ext })

/-- CapacityLatency: one rolling window of duration samples (int64
nanoseconds in Go, modelled as integers), a limit duration and the reduction
chosen at construction (average by default). -/
structure CapacityLatency where
  name : String
  window : Window
  limit : ℤ
  reduction : Window → ℤ

/-- NewCapacityLatency: the window starts empty and the default reduction is
the rolling average. -/
def NewCapacityLatency (limit : ℤ)
    (reduction : Window → ℤ := rollingAvg)
    (name : String := "LATENCY") : CapacityLatency :=
  { name := name, window := [], limit := limit, reduction := reduction }

/-- Seconds converts a duration in nanoseconds to a rational number of
seconds, as the Go Duration.Seconds conversion to float64. -/
def durationSeconds (d : ℤ) : ℚ := (d : ℚ) / 1000000000

/-- CapacityLatency.Usage: the reduced window value in seconds divided by
the limit duration in seconds. -/
def CapacityLatency.Usage (self : CapacityLatency) (_ctx : Ctx) : GoFloat :=
  GoFloat.div (.val (durationSeconds (self.reduction self.window)))
    (.val (durationSeconds self.limit))

/-- The cross-call state of the Throttle decorator: the last refresh
timestamp and the cached usage value, guarded by a lock in Go. -/
structure ThrottleState where
  last : ℚ
  cache : ℚ
deriving DecidableEq

/-- CapacityThrottle.Usage. Wall-clock time is made explicit: tCheck is the
time at which time.Since reads the clock for the staleness test, and tAfter
is the time at which time.Now runs, which in the source is after the
delegate call returns, so tAfter exceeds tCheck by the delegate latency.
The delegate is modelled as the true usage of the wrapped Capacity as a
function of the time it is read. On a stale cache the delegate is read, the
cache updated and the timestamp set to tAfter; otherwise the cached value is
returned and nothing changes. -/
def CapacityThrottle.Usage (duration : ℚ) (delegate : ℚ → ℚ)
    (st : ThrottleState) (tCheck tAfter : ℚ) : ℚ × ThrottleState :=
  if tCheck - st.last ≥ duration then
    let value := delegate tCheck
    (value, { last := tAfter, cache := value })
  else (st.cache, st)

theorem selectRules_none_of {sg : Type} (ctx : Ctx) (st : sg)
    (rules : List (Rule sg))
    (h : ∀ k, (hk : k < rules.length) →
      (rules.get ⟨k, hk⟩).reject ctx st = false) :
    selectRules rules ctx st = none := by
  induction rules with
  | nil => rfl
  | cons r rest ih =>
    have h0 : r.reject ctx st = false := h 0 (Nat.succ_pos _)
    rw [selectRules, if_neg (by simp [h0])]
    exact ih (fun k hk => h (k + 1) (Nat.succ_lt_succ hk))

theorem selectRules_hit_of {sg : Type} (ctx : Ctx) (st : sg)
    (rules : List (Rule sg)) :
    ∀ (j : ℕ) (hj : j < rules.length),
      (∀ k, (hk : k < j) →
        (rules.get ⟨k, hk.trans hj⟩).reject ctx st = false) →
      (rules.get ⟨j, hj⟩).reject ctx st = true →
      selectRules rules ctx st = some (ruleRejection (rules.get ⟨j, hj⟩) ctx st) := by
  induction rules with
  | nil => intro j hj; exact absurd hj (by simp)
  | cons r rest ih =>
    intro j hj hbefore hhit
    cases j with
    | zero =>
      have hh : r.reject ctx st = true := hhit
      rw [selectRules, if_pos hh]
      rfl
    | succ j' =>
      have h0 : r.reject ctx st = false := hbefore 0 (Nat.succ_pos _)
      rw [selectRules, if_neg (by simp [h0])]
      exact ih j' (Nat.lt_of_succ_lt_succ hj)
        (fun k hk => hbefore (k + 1) (Nat.succ_lt_succ hk)) hhit

theorem selectRates_none_of {sg : Type} (ctx : Ctx) (draws : ℕ → ℚ) (st : sg)
    (rates : List (RejectionRate sg)) :
    ∀ (i : ℕ),
      (∀ k, (hk : k < rates.length) →
        ¬(draws (i + k) < (rates.get ⟨k, hk⟩).rate ctx st)) →
      selectRates rates ctx draws st i = (none, i + rates.length) := by
  induction rates with
  | nil => intro i h; simp [selectRates]
  | cons r rest ih =>
    intro i h
    have h0 : ¬(draws i < r.rate ctx st) := by
      have h' := h 0 (Nat.succ_pos _)
      simpa using h'
    rw [selectRates, if_neg h0]
    have hrest : ∀ k, (hk : k < rest.length) →
        ¬(draws ((i + 1) + k) < (rest.get ⟨k, hk⟩).rate ctx st) := by
      intro k hk
      have h' := h (k + 1) (Nat.succ_lt_succ hk)
      have heq : (i + 1) + k = i + (k + 1) := by omega
      rw [heq]
      exact h'
    rw [ih (i + 1) hrest]
    simp
    omega

theorem selectRates_hit_of {sg : Type} (ctx : Ctx) (draws : ℕ → ℚ) (st : sg)
    (rates : List (RejectionRate sg)) :
    ∀ (i j : ℕ) (hj : j < rates.length),
      (∀ k, (hk : k < j) →
        ¬(draws (i + k) < (rates.get ⟨k, hk.trans hj⟩).rate ctx st)) →
      draws (i + j) < (rates.get ⟨j, hj⟩).rate ctx st →
      selectRates rates ctx draws st i =
        (some (probRejection (rates.get ⟨j, hj⟩) ctx st), i + j + 1) := by
  induction rates with
  | nil => intro i j hj; exact absurd hj (by simp)
  | cons r rest ih =>
    intro i j hj hbefore hhit
    cases j with
    | zero =>
      have hh : draws i < r.rate ctx st := by simpa using hhit
      rw [selectRates, if_pos hh]
      simp
    | succ j' =>
      have h0 : ¬(draws i < r.rate ctx st) := by
        have h' := hbefore 0 (Nat.succ_pos _)
        simpa using h'
      rw [selectRates, if_neg h0]
      have hj' : j' < rest.length := Nat.lt_of_succ_lt_succ hj
      have hb' : ∀ k, (hk : k < j') →
          ¬(draws ((i + 1) + k) < (rest.get ⟨k, hk.trans hj'⟩).rate ctx st) := by
        intro k hk
        have h' := hbefore (k + 1) (Nat.succ_lt_succ hk)
        have heq : (i + 1) + k = i + (k + 1) := by omega
        rw [heq]
        exact h'
      have hh' : draws ((i + 1) + j') < (rest.get ⟨j', hj'⟩).rate ctx st := by
        have heq : (i + 1) + j' = i + (j' + 1) := by omega
        rw [heq]
        exact hhit
      rw [ih (i + 1) j' hj' hb' hh']
      simp
      omega

theorem selectRates_lt_of_some {sg : Type} (ctx : Ctx) (draws : ℕ → ℚ)
    (st : sg) (rates : List (RejectionRate sg)) :
    ∀ (i n : ℕ) (e : ErrRejection),
      selectRates rates ctx draws st i = (some e, n) → i < n := by
  induction rates with
  | nil => intro i n e h; simp [selectRates] at h
  | cons r rest ih =>
    intro i n e h
    rw [selectRates] at h
    by_cases hc : draws i < r.rate ctx st
    · rw [if_pos hc] at h
      have h2 := congrArg Prod.snd h
      simp at h2
      omega
    · rw [if_neg hc] at h
      have := ih (i + 1) n e h
      omega

/-- A rule that never rejects, used in concrete scenarios. -/
def rulePass : Rule Unit :=
  { name := fun _ _ => "PASS", reject := fun _ _ => false }

/-- A rule that always rejects, used in concrete scenarios. -/
def ruleDeny : Rule Unit :=
  { name := fun _ _ => "DENY", reject := fun _ _ => true }

/-- A rejection rate whose usage, likelihood and rate are all the constant q
and that exposes no instrumentation wrapper. -/
def rateConst (q : ℚ) : RejectionRate Unit :=
  { name := fun _ _ => "RATE"
    usage := fun _ _ => q
    likelihood := fun _ _ => q
    rate := fun _ _ => q
    wrap := none }

/-- A deterministic random stream fixed at one half. -/
def drawsHalf : ℕ → ℚ := fun _ => 1 / 2

/-- Concrete shedder: a passing rule followed by a rejecting rule, with two
rates behind them. -/
def shedA : Shedder Unit :=
  { rejectionRates := [rateConst 0, rateConst 1]
    rules := [rulePass, ruleDeny]
    classifier := none }

/-- Concrete shedder: one passing rule, a zero rate then a unit rate. -/
def shedB : Shedder Unit :=
  { rejectionRates := [rateConst 0, rateConst 1]
    rules := [rulePass]
    classifier := none }

/-- Concrete shedder: no rules and a single zero rate. -/
def shedC : Shedder Unit :=
  { rejectionRates := [rateConst 0]
    rules := []
    classifier := none }

/-- C1: Select evaluates Rules strictly in registration order and, for the
first rule whose reject is true, returns an ErrRejection whose Rule field is
that rule name, whose probabilistic fields are zero (see ruleRejection),
consuming no random draw. Only when no rule rejects does it evaluate
RejectionRates strictly in registration order, drawing exactly one value per
rate evaluated, and for the first rate whose draw is strictly below its
current rate it returns the PROBABILISTIC ErrRejection carrying that rate
name and its current usage, likelihood and rate (see probRejection), having
consumed exactly the draws of the rates up to and including the deciding
one. When no rule and no rate rejects, Select returns none having consumed
one draw per registered rate. -/
theorem shedder_select_first_match {sg : Type} (s : Shedder sg) (ctx : Ctx)
    (draws : ℕ → ℚ) (st : sg) :
    (∀ j, (hj : j < s.rules.length) →
      (∀ k, (hk : k < j) →
        (s.rules.get ⟨k, hk.trans hj⟩).reject ctx st = false) →
      (s.rules.get ⟨j, hj⟩).reject ctx st = true →
      s.Select ctx draws st =
        (some (ruleRejection (s.rules.get ⟨j, hj⟩) ctx st), 0))
  ∧ ((∀ k, (hk : k < s.rules.length) →
        (s.rules.get ⟨k, hk⟩).reject ctx st = false) →
      ∀ j, (hj : j < s.rejectionRates.length) →
      (∀ k, (hk : k < j) →
        ¬(draws k < (s.rejectionRates.get ⟨k, hk.trans hj⟩).rate ctx st)) →
      draws j < (s.rejectionRates.get ⟨j, hj⟩).rate ctx st →
      s.Select ctx draws st =
        (some (probRejection (s.rejectionRates.get ⟨j, hj⟩) ctx st), j + 1))
  ∧ ((∀ k, (hk : k < s.rules.length) →
        (s.rules.get ⟨k, hk⟩).reject ctx st = false) →
      (∀ k, (hk : k < s.rejectionRates.length) →
        ¬(draws k < (s.rejectionRates.get ⟨k, hk⟩).rate ctx st)) →
      s.Select ctx draws st = (none, s.rejectionRates.length)) := by
  refine ⟨?_, ?_, ?_⟩
  · intro j hj hbefore hhit
    unfold Shedder.Select
    rw [selectRules_hit_of ctx st s.rules j hj hbefore hhit]
  · intro hrules j hj hbefore hhit
    unfold Shedder.Select
    rw [selectRules_none_of ctx st s.rules hrules]
    have hb : ∀ k, (hk : k < j) →
        ¬(draws (0 + k) < (s.rejectionRates.get ⟨k, hk.trans hj⟩).rate ctx st) := by
      intro k hk
      simpa using hbefore k hk
    have hh : draws (0 + j) < (s.rejectionRates.get ⟨j, hj⟩).rate ctx st := by
      simpa using hhit
    have := selectRates_hit_of ctx draws st s.rejectionRates 0 j hj hb hh
    simpa using this
  · intro hrules hrates
    unfold Shedder.Select
    rw [selectRules_none_of ctx st s.rules hrules]
    have hb : ∀ k, (hk : k < s.rejectionRates.length) →
        ¬(draws (0 + k) < (s.rejectionRates.get ⟨k, hk⟩).rate ctx st) := by
      intro k hk
      simpa using hrates k hk
    have := selectRates_none_of ctx draws st s.rejectionRates 0 hb
    simpa using this

/-- Witness for C1: the three branches of shedder_select_first_match at
concrete shedders. -/
theorem shedder_select_first_match_witness :
    shedA.Select backgroundCtx drawsHalf () =
      (some (ruleRejection ruleDeny backgroundCtx ()), 0)
  ∧ shedB.Select backgroundCtx drawsHalf () =
      (some (probRejection (rateConst 1) backgroundCtx ()), 2)
  ∧ shedC.Select backgroundCtx drawsHalf () = (none, 1) := by
  refine ⟨?_, ?_, ?_⟩
  · have h1 : (1 : ℕ) < shedA.rules.length := by decide
    have hb : ∀ k, (hk : k < 1) →
        (shedA.rules.get ⟨k, hk.trans h1⟩).reject backgroundCtx () = false := by
      intro k hk
      have hk0 : k = 0 := by omega
      subst hk0
      rfl
    have hh : (shedA.rules.get ⟨1, h1⟩).reject backgroundCtx () = true := rfl
    exact (shedder_select_first_match shedA backgroundCtx drawsHalf ()).1 1 h1 hb hh
  · have hr : ∀ k, (hk : k < shedB.rules.length) →
        (shedB.rules.get ⟨k, hk⟩).reject backgroundCtx () = false := by
      intro k hk
      have hl : shedB.rules.length = 1 := rfl
      have hk0 : k = 0 := by omega
      subst hk0
      rfl
    have h1 : (1 : ℕ) < shedB.rejectionRates.length := by decide
    have hb : ∀ k, (hk : k < 1) →
        ¬(drawsHalf k <
          (shedB.rejectionRates.get ⟨k, hk.trans h1⟩).rate backgroundCtx ()) := by
      intro k hk
      have hk0 : k = 0 := by omega
      subst hk0
      show ¬((1 : ℚ) / 2 < 0)
      norm_num
    have hh : drawsHalf 1 <
        (shedB.rejectionRates.get ⟨1, h1⟩).rate backgroundCtx () := by
      show (1 : ℚ) / 2 < 1
      norm_num
    exact (shedder_select_first_match shedB backgroundCtx drawsHalf ()).2.1
      hr 1 h1 hb hh
  · have hr : ∀ k, (hk : k < shedC.rules.length) →
        (shedC.rules.get ⟨k, hk⟩).reject backgroundCtx () = false := by
      intro k hk
      have hl : shedC.rules.length = 0 := rfl
      exact absurd hk (by omega)
    have hb : ∀ k, (hk : k < shedC.rejectionRates.length) →
        ¬(drawsHalf k <
          (shedC.rejectionRates.get ⟨k, hk⟩).rate backgroundCtx ()) := by
      intro k hk
      have hl : shedC.rejectionRates.length = 1 := rfl
      have hk0 : k = 0 := by omega
      subst hk0
      show ¬((1 : ℚ) / 2 < 0)
      norm_num
    exact (shedder_select_first_match shedC backgroundCtx drawsHalf ()).2.2 hr hb

/-- C2: whenever Select on the classification extended context returns a
rejection, Do returns exactly that rejection with the state unchanged, for
every action: the action is never invoked and no instrumentation wrapper is
applied, so no capacity observes the invocation. -/
theorem shedder_do_rejection {sg : Type} (s : Shedder sg) (ctx : Ctx)
    (draws : ℕ → ℚ) (st : sg) (e : ErrRejection)
    (h : (s.Select (s.classify ctx) draws st).1 = some e) :
    ∀ fn : Fn sg, s.Do ctx fn draws st = (Outcome.rejection e, st) := by
  intro fn
  show (match (s.Select (s.classify ctx) draws st).1 with
    | some e => (Outcome.rejection e, st)
    | none => applyWraps s.rejectionRates fn (s.classify ctx) st) =
    (Outcome.rejection e, st)
  rw [h]

/-- Concrete shedder with a single always rejecting rule. -/
def shedDeny : Shedder Unit :=
  { rejectionRates := [], rules := [ruleDeny], classifier := none }

/-- An action that finishes normally and leaves the state alone. -/
def fnOk : Fn Unit := fun _ st => (Outcome.ok, st)

/-- Witness for C2: Do on a shedder whose rule always rejects. -/
theorem shedder_do_rejection_witness :
    shedDeny.Do backgroundCtx fnOk drawsHalf () =
      (Outcome.rejection (ruleRejection ruleDeny backgroundCtx ()), ()) :=
  shedder_do_rejection shedDeny backgroundCtx drawsHalf ()
    (ruleRejection ruleDeny backgroundCtx ()) rfl fnOk

/-- C6: the reusable action returned by WrapSelect produces on every call
exactly the outcome and state effects of Do on the same context, draw
stream and state: the wrapping folded once at construction commutes with
the per call classification and Select. -/
theorem shedder_wrapSelect_eq_do {sg : Type} (s : Shedder sg) (fn : Fn sg)
    (ctx : Ctx) (draws : ℕ → ℚ) (st : sg) :
    s.WrapSelect fn ctx draws st = s.Do ctx fn draws st := rfl

/-- C7: CurveLinear.Curve agrees everywhere with the specification formula
(0 below the lower threshold, 1 above the upper threshold, otherwise the
interpolation quotient raised to the exponent, with exponent 1 using the
plain quotient), and takes the four specified concrete values. -/
theorem curveLinear_matches_spec :
    (∀ (c : CurveLinear) (ctx : Ctx) (v : ℚ),
      c.Curve ctx v = curveLinearSpec c v)
  ∧ (CurveLinear.mk 200 100 1).Curve backgroundCtx 50 = 0
  ∧ (CurveLinear.mk 20 0 1).Curve backgroundCtx 50 = 1
  ∧ (CurveLinear.mk 100 0 1).Curve backgroundCtx 50 = 1 / 2
  ∧ (CurveLinear.mk 180 80 1).Curve backgroundCtx 100 = 1 / 5 := by
  refine ⟨?_, ?_, ?_, ?_, ?_⟩
  · intro c ctx v
    unfold CurveLinear.Curve curveLinearSpec
    by_cases h1 : v < c.Lower
    · simp [h1]
    · by_cases h2 : v > c.Upper
      · simp [h1, h2]
      · by_cases h3 : c.Exponent = 1
        · simp [h1, h2, h3]
        · simp [h1, h2, h3]
  · unfold CurveLinear.Curve
    norm_num
  · unfold CurveLinear.Curve
    norm_num
  · unfold CurveLinear.Curve
    norm_num
  · unfold CurveLinear.Curve
    norm_num

/-- C8: the rejection rate built by NewRejectionRateCurveIdentity returns
the underlying likelihood unmodified for every failure probability, context
and state: the identity default curve with the empty classification map. -/
theorem rejectionRateCurveIdentity_rate {sg : Type}
    (p : FailureProbability sg) (ctx : Ctx) (st : sg) :
    (NewRejectionRateCurveIdentity p).Rate ctx st = p.likelihood ctx st := rfl

/-- C3 (amended): with no recorded activity each capacity usage is zero for
every context; for the error rate this holds for every constructor
configuration (any minimum points gate), while for concurrency, landing
rate and latency it holds for every configuration whose limit is nonzero
(and for latency any reduction that maps the empty window to zero, as the
default average does); with a zero limit the zero over zero division
produces NaN instead. -/
theorem capacities_empty_usage :
    (∀ (limit : ℤ) (name : String) (ctx : Ctx), limit ≠ 0 →
      (NewCapacityConcurrency limit name).Usage ctx = GoFloat.val 0)
  ∧ (∀ (limit : ℤ) (name : String) (ctx : Ctx), limit ≠ 0 →
      (NewCapacityLandingRate limit name).Usage ctx = GoFloat.val 0)
  ∧ (∀ (minPoints : ℤ) (name : String) (ctx : Ctx),
      (NewCapacityErrorRate minPoints name).Usage ctx = GoFloat.val 0)
  ∧ (∀ (limit : ℤ) (reduction : Window → ℤ) (name : String) (ctx : Ctx),
      limit ≠ 0 → reduction [] = 0 →
      (NewCapacityLatency limit reduction name).Usage ctx = GoFloat.val 0) := by
  refine ⟨?_, ?_, ?_, ?_⟩
  · intro limit name ctx h
    show GoFloat.div (.val 0) (.val limit) = GoFloat.val 0
    simp [GoFloat.div, h]
  · intro limit name ctx h
    show GoFloat.div (.val (rollingCount [])) (.val limit) = GoFloat.val 0
    simp [GoFloat.div, rollingCount, h]
  · intro minPoints name ctx
    unfold CapacityErrorRate.Usage NewCapacityErrorRate
    by_cases hm : 0 < minPoints <;>
      simp [hm, rollingMinimumPoints, rollingCount]
  · intro limit reduction name ctx h hred
    have hne : durationSeconds limit ≠ 0 := by
      unfold durationSeconds
      exact div_ne_zero (by exact_mod_cast h) (by norm_num)
    show GoFloat.div (.val (durationSeconds (reduction [])))
        (.val (durationSeconds limit)) = GoFloat.val 0
    rw [hred]
    simp [GoFloat.div, hne, durationSeconds]
    exact h

/-- C3 counterexample: the concurrency capacity constructed with limit zero
has zero recorded activity, yet its usage is the NaN of the zero over zero
float division, not zero. -/
theorem capacities_empty_usage_cex :
    (NewCapacityConcurrency 0).Usage backgroundCtx = GoFloat.nan ∧
    (NewCapacityConcurrency 0).Usage backgroundCtx ≠ GoFloat.val 0 := by
  constructor
  · show GoFloat.div (.val 0) (.val 0) = GoFloat.nan
    simp [GoFloat.div]
  · show GoFloat.div (.val 0) (.val 0) ≠ GoFloat.val 0
    simp [GoFloat.div]

/-- C4: the action wrapped by the error rate capacity appends exactly one
attempt sample per invocation on every exit path, appends one error sample
exactly when the action finished with a non-nil error or terminated
abnormally, leaves the error window untouched exactly when the action
finished normally, propagates the action state change and returns the
action outcome unchanged, panics included. -/
theorem errorRate_wrap_samples {tau : Type} (fn : Ctx → tau → Outcome × tau)
    (ctx : Ctx) (st : ErrRateState tau) :
    (CapacityErrorRate.WrapExec fn ctx st).1 = (fn ctx st.ext).1
  ∧ (CapacityErrorRate.WrapExec fn ctx st).2.invocations =
      st.invocations ++ [1]
  ∧ ((CapacityErrorRate.WrapExec fn ctx st).2.errors = st.errors ++ [1] ↔
      (fn ctx st.ext).1 ≠ Outcome.ok)
  ∧ ((CapacityErrorRate.WrapExec fn ctx st).2.errors = st.errors ↔
      (fn ctx st.ext).1 = Outcome.ok)
  ∧ (CapacityErrorRate.WrapExec fn ctx st).2.ext = (fn ctx st.ext).2 := by
  unfold CapacityErrorRate.WrapExec
  by_cases hout : (fn ctx st.ext).1 = Outcome.ok
  · simp [hout]
  · have hpanic : ((fn ctx st.ext).1 ≠ Outcome.ok ∨
        (fn ctx st.ext).1 = Outcome.panicked) := Or.inl hout
    simp [hout, hpanic]

/-- C5: a throttle Usage call with elapsed time since the last refresh at
least the configured duration recomputes through the delegate, caches the
result and stamps the refresh timestamp with the time captured after the
delegate returned; a call with elapsed time under the duration returns the
cached value with the state untouched and never consults the delegate;
consequently any call within the duration of the post-delegate timestamp
returns the identical cached value even when the true usage changed, and
the first call at least the duration past that timestamp reflects the
updated value. -/
theorem throttle_usage_cache (d : ℚ) (f g : ℚ → ℚ) (st : ThrottleState)
    (tCheck tAfter : ℚ) :
    (tCheck - st.last ≥ d →
      CapacityThrottle.Usage d f st tCheck tAfter =
        (f tCheck, ⟨tAfter, f tCheck⟩))
  ∧ (tCheck - st.last < d →
      CapacityThrottle.Usage d f st tCheck tAfter = (st.cache, st)
      ∧ CapacityThrottle.Usage d f st tCheck tAfter =
          CapacityThrottle.Usage d g st tCheck tAfter)
  ∧ (∀ t2 t2' : ℚ, t2 - tAfter < d →
      CapacityThrottle.Usage d g ⟨tAfter, f tCheck⟩ t2 t2' =
        (f tCheck, ⟨tAfter, f tCheck⟩))
  ∧ (∀ t3 t3' : ℚ, t3 - tAfter ≥ d →
      CapacityThrottle.Usage d g ⟨tAfter, f tCheck⟩ t3 t3' =
        (g t3, ⟨t3', g t3⟩)) := by
  refine ⟨?_, ?_, ?_, ?_⟩
  · intro h
    unfold CapacityThrottle.Usage
    rw [if_pos h]
  · intro h
    unfold CapacityThrottle.Usage
    rw [if_neg (not_le.mpr h), if_neg (not_le.mpr h)]
    exact ⟨rfl, rfl⟩
  · intro t2 t2' h
    unfold CapacityThrottle.Usage
    rw [if_neg (not_le.mpr h)]
  · intro t3 t3' h
    unfold CapacityThrottle.Usage
    rw [if_pos h]

/-- Witness for C5: concrete refresh, cached read, identical second read
within the duration despite a changed delegate, and refresh after the
duration elapses from the post-delegate timestamp. -/
theorem throttle_usage_cache_witness :
    CapacityThrottle.Usage 2 (fun t => t + 10) ⟨0, 5⟩ 3 4 = (13, ⟨4, 13⟩)
  ∧ CapacityThrottle.Usage 2 (fun t => t + 10) ⟨10, 13⟩ 11 12 = (13, ⟨10, 13⟩)
  ∧ CapacityThrottle.Usage 2 (fun t => t * 2) ⟨4, 13⟩ 5 9 = (13, ⟨4, 13⟩)
  ∧ CapacityThrottle.Usage 2 (fun t => t * 2) ⟨4, 13⟩ 6 7 = (12, ⟨7, 12⟩) := by
  have h := throttle_usage_cache 2 (fun t => t + 10) (fun t => t * 2) ⟨0, 5⟩ 3 4
  have h2 := throttle_usage_cache 2 (fun t => t + 10) (fun t => t * 2)
    ⟨10, 13⟩ 11 12
  refine ⟨?_, ?_, ?_, ?_⟩
  · have h1 := h.1 (by norm_num)
    rw [h1]
    norm_num
  · have hc := (h2.2.1 (by norm_num)).1
    rw [hc]
  · have h3 := h.2.2.1 5 9 (by norm_num)
    norm_num at h3
    exact h3
  · have h4 := h.2.2.2 6 7 (by norm_num)
    norm_num at h4
    exact h4

/-- C9: with a classifier configured, Do equals Do of the classifier free
shedder on the context carrying the classification computed once from the
original context, so the rules, the rates with their per classification
curve lookups, and the action all observe that single classification value;
reading back a stored classification returns it, and with nothing stored
the read is the empty classification. -/
theorem shedder_do_classifies_once {sg : Type} (s : Shedder sg) (ctx : Ctx)
    (fn : Fn sg) (draws : ℕ → ℚ) (st : sg) :
    (∀ c : Classifier, s.classifier = some c →
      s.Do ctx fn draws st =
        Shedder.Do ⟨s.rejectionRates, s.rules, none⟩
          (ClassificationToContext ctx (c ctx)) fn draws st)
  ∧ (∀ cl : Classification,
      ClassificationFromContext (ClassificationToContext ctx cl) = cl)
  ∧ (ctx.classification = none → ClassificationFromContext ctx = "") := by
  refine ⟨?_, ?_, ?_⟩
  · intro c hc
    obtain ⟨rates, rules, cls⟩ := s
    have hc' : cls = some c := hc
    subst hc'
    rfl
  · intro cl
    rfl
  · intro h
    unfold ClassificationFromContext
    rw [h]

/-- A classifier fixed at the HIGH classification. -/
def classHigh : Classifier := fun _ => "HIGH"

/-- A concrete shedder carrying only a classifier. -/
def shedClassified : Shedder Unit :=
  { rejectionRates := [], rules := [], classifier := some classHigh }

/-- The same shedder without its classifier. -/
def shedPlain : Shedder Unit :=
  { rejectionRates := [], rules := [], classifier := none }

/-- Witness for C9 at a concrete classifier and context. -/
theorem shedder_do_classifies_once_witness :
    shedClassified.Do backgroundCtx fnOk drawsHalf () =
      shedPlain.Do (ClassificationToContext backgroundCtx "HIGH") fnOk
        drawsHalf ()
  ∧ ClassificationFromContext (ClassificationToContext backgroundCtx "HIGH") =
      "HIGH"
  ∧ ClassificationFromContext backgroundCtx = "" := by
  have h := shedder_do_classifies_once shedClassified backgroundCtx fnOk
    drawsHalf ()
  exact ⟨h.1 classHigh rfl, h.2.1 "HIGH", h.2.2 rfl⟩

theorem selectRates_count_past_skipped {sg : Type} (ctx : Ctx)
    (draws : ℕ → ℚ) (st : sg) (rates : List (RejectionRate sg)) :
    ∀ (i m : ℕ) (hm : m ≤ rates.length),
      (∀ k, (hk : k < m) →
        ¬(draws (i + k) < (rates.get ⟨k, hk.trans_le hm⟩).rate ctx st)) →
      ∀ (e : ErrRejection) (n : ℕ),
        selectRates rates ctx draws st i = (some e, n) → i + m < n := by
  induction rates with
  | nil => intro i m hm h e n hsel; simp [selectRates] at hsel
  | cons r rest ih =>
    intro i m hm h e n hsel
    cases m with
    | zero =>
      have := selectRates_lt_of_some ctx draws st (r :: rest) i n e hsel
      omega
    | succ m' =>
      have h0 : ¬(draws i < r.rate ctx st) := by
        have h' := h 0 (Nat.succ_pos _)
        simpa using h'
      rw [selectRates, if_neg h0] at hsel
      have hm' : m' ≤ rest.length := Nat.le_of_succ_le_succ hm
      have h' : ∀ k, (hk : k < m') →
          ¬(draws ((i + 1) + k) < (rest.get ⟨k, hk.trans_le hm'⟩).rate ctx st) := by
        intro k hk
        have hkk := h (k + 1) (Nat.succ_lt_succ hk)
        have heq : (i + 1) + k = i + (k + 1) := by omega
        rw [heq]
        exact hkk
      have := ih (i + 1) m' hm' h' e n hsel
      omega

/-- C10: when every draw of the random stream lies in the half open unit
interval and no rule rejects, a rejection rate whose current rate is at
most zero can never be the deciding rate of Select (the strict comparison
of a nonnegative draw against it never fires), while the first reached
rate whose current rate is at least one always decides: Select returns its
probabilistic rejection having consumed exactly its draw. -/
theorem select_rate_zero_one_bounds {sg : Type} (s : Shedder sg) (ctx : Ctx)
    (draws : ℕ → ℚ) (st : sg)
    (hdraws : ∀ n, 0 ≤ draws n ∧ draws n < 1)
    (hrules : ∀ k, (hk : k < s.rules.length) →
      (s.rules.get ⟨k, hk⟩).reject ctx st = false) :
    (∀ j, (hj : j < s.rejectionRates.length) →
      (∀ k, (hk : k < j) →
        ¬(draws k < (s.rejectionRates.get ⟨k, hk.trans hj⟩).rate ctx st)) →
      (s.rejectionRates.get ⟨j, hj⟩).rate ctx st ≤ 0 →
      s.Select ctx draws st ≠
        (some (probRejection (s.rejectionRates.get ⟨j, hj⟩) ctx st), j + 1))
  ∧ (∀ j, (hj : j < s.rejectionRates.length) →
      (∀ k, (hk : k < j) →
        ¬(draws k < (s.rejectionRates.get ⟨k, hk.trans hj⟩).rate ctx st)) →
      1 ≤ (s.rejectionRates.get ⟨j, hj⟩).rate ctx st →
      s.Select ctx draws st =
        (some (probRejection (s.rejectionRates.get ⟨j, hj⟩) ctx st), j + 1)) := by
  constructor
  · intro j hj hbefore hrate hcontra
    unfold Shedder.Select at hcontra
    rw [selectRules_none_of ctx st s.rules hrules] at hcontra
    have hm : j + 1 ≤ s.rejectionRates.length := hj
    have hall : ∀ k, (hk : k < j + 1) →
        ¬(draws (0 + k) <
          (s.rejectionRates.get ⟨k, hk.trans_le hm⟩).rate ctx st) := by
      intro k hk
      rcases Nat.lt_or_ge k j with hkj | hkj
      · have h' := hbefore k hkj
        simpa using h'
      · have hkj' : k = j := by omega
        subst hkj'
        have h0 := (hdraws k).1
        simp only [Nat.zero_add]
        exact not_lt.mpr (le_trans hrate h0)
    have := selectRates_count_past_skipped ctx draws st s.rejectionRates 0
      (j + 1) hm hall (probRejection (s.rejectionRates.get ⟨j, hj⟩) ctx st)
      (j + 1) hcontra
    omega
  · intro j hj hbefore hrate
    unfold Shedder.Select
    rw [selectRules_none_of ctx st s.rules hrules]
    have hb : ∀ k, (hk : k < j) →
        ¬(draws (0 + k) <
          (s.rejectionRates.get ⟨k, hk.trans hj⟩).rate ctx st) := by
      intro k hk
      have h' := hbefore k hk
      simpa using h'
    have hh : draws (0 + j) < (s.rejectionRates.get ⟨j, hj⟩).rate ctx st := by
      simp only [Nat.zero_add]
      exact lt_of_lt_of_le (hdraws j).2 hrate
    have := selectRates_hit_of ctx draws st s.rejectionRates 0 j hj hb hh
    simpa using this

/-- Witness for C10: in a shedder with a zero rate followed by a unit rate
and the constant one half draw stream, the zero rate never decides and the
unit rate always does. -/
theorem select_rate_zero_one_bounds_witness :
    shedB.Select backgroundCtx drawsHalf () ≠
      (some (probRejection (rateConst 0) backgroundCtx ()), 1)
  ∧ shedB.Select backgroundCtx drawsHalf () =
      (some (probRejection (rateConst 1) backgroundCtx ()), 2) := by
  have hdraws : ∀ n, (0 : ℚ) ≤ drawsHalf n ∧ drawsHalf n < 1 := by
    intro n
    unfold drawsHalf
    norm_num
  have hrules : ∀ k, (hk : k < shedB.rules.length) →
      (shedB.rules.get ⟨k, hk⟩).reject backgroundCtx () = false := by
    intro k hk
    have hl : shedB.rules.length = 1 := rfl
    have hk0 : k = 0 := by omega
    subst hk0
    rfl
  have h := select_rate_zero_one_bounds shedB backgroundCtx drawsHalf ()
    hdraws hrules
  constructor
  · have h0 : (0 : ℕ) < shedB.rejectionRates.length := by decide
    have hb : ∀ k, (hk : k < 0) →
        ¬(drawsHalf k <
          (shedB.rejectionRates.get ⟨k, hk.trans h0⟩).rate backgroundCtx ()) := by
      intro k hk
      exact absurd hk (by omega)
    have hr : (shedB.rejectionRates.get ⟨0, h0⟩).rate backgroundCtx () ≤ 0 := by
      show (0 : ℚ) ≤ 0
      norm_num
    exact h.1 0 h0 hb hr
  · have h1 : (1 : ℕ) < shedB.rejectionRates.length := by decide
    have hb : ∀ k, (hk : k < 1) →
        ¬(drawsHalf k <
          (shedB.rejectionRates.get ⟨k, hk.trans h1⟩).rate backgroundCtx ()) := by
      intro k hk
      have hk0 : k = 0 := by omega
      subst hk0
      show ¬((1 : ℚ) / 2 < 0)
      norm_num
    have hr : (1 : ℚ) ≤ (shedB.rejectionRates.get ⟨1, h1⟩).rate backgroundCtx () := by
      show (1 : ℚ) ≤ 1
      norm_num
    exact h.2 1 h1 hb hr

/-- Witness for the amended C3: the four freshly constructed capacities at
nonzero limits report zero usage. -/
theorem capacities_empty_usage_witness :
    (NewCapacityConcurrency 4).Usage backgroundCtx = GoFloat.val 0
  ∧ (NewCapacityLandingRate 4).Usage backgroundCtx = GoFloat.val 0
  ∧ (NewCapacityErrorRate 5).Usage backgroundCtx = GoFloat.val 0
  ∧ (NewCapacityLatency 1000000000).Usage backgroundCtx = GoFloat.val 0 := by
  have h := capacities_empty_usage
  exact ⟨h.1 4 "CONCURRENCY" backgroundCtx (by norm_num),
    h.2.1 4 "LANDING RATE" backgroundCtx (by norm_num),
    h.2.2.1 5 "ERROR RATE" backgroundCtx,
    h.2.2.2 1000000000 rollingAvg "LATENCY" backgroundCtx (by norm_num) rfl⟩
